import Mathlib

/-!
Verification of the wikilink-preserver editor guard (src/main.ts).

Strings are modelled as `List Char`. The single source function
`handleEditorChange` is embedded as a pure function from the
pre-invocation latch value, the change context (line text, cursor
position, the value returned by the host configuration read), and the
behaviour of the host mutation primitives, to a record of the observable
effects of the call: the editor operations actually issued, the latch
value at return, whether an exception escaped to the caller, whether the
deferred latch-reset callback was scheduled, and whether a configuration
error was logged.
-/

namespace WikilinkPreserver

/-- The character list of a string literal. -/
def chars (s : String) : List Char := s.data

/-- Value of a hexadecimal digit, as used by percent-escape decoding. -/
def hexDigit (c : Char) : Option Nat :=
  if '0' ≤ c ∧ c ≤ '9' then some (c.toNat - 48)
  else if 'A' ≤ c ∧ c ≤ 'F' then some (c.toNat - 55)
  else if 'a' ≤ c ∧ c ≤ 'f' then some (c.toNat - 87)
  else none

/-- JavaScript `decodeURIComponent`: percent-escapes are decoded to bytes and
byte sequences are decoded as UTF-8 (continuation bytes must themselves be
percent-escaped; overlong encodings, surrogates and out-of-range code points
are rejected). `none` models the thrown `URIError`. -/
def decodeURIComponent : List Char → Option (List Char)
  | [] => some []
  | '%' :: h1 :: h2 :: rest =>
    match hexDigit h1, hexDigit h2 with
    | some a, some b =>
      let b1 := 16 * a + b
      if b1 < 128 then
        (decodeURIComponent rest).map (Char.ofNat b1 :: ·)
      else if b1 < 192 then none
      else if b1 < 224 then
        match rest with
        | '%' :: h3 :: h4 :: rest2 =>
          match hexDigit h3, hexDigit h4 with
          | some c, some d =>
            let b2 := 16 * c + d
            if 128 ≤ b2 ∧ b2 < 192 then
              let cp := (b1 - 192) * 64 + (b2 - 128)
              if 128 ≤ cp then
                (decodeURIComponent rest2).map (Char.ofNat cp :: ·)
              else none
            else none
          | _, _ => none
        | _ => none
      else if b1 < 240 then
        match rest with
        | '%' :: h3 :: h4 :: '%' :: h5 :: h6 :: rest2 =>
          match hexDigit h3, hexDigit h4, hexDigit h5, hexDigit h6 with
          | some c, some d, some e, some f =>
            let b2 := 16 * c + d
            let b3 := 16 * e + f
            if (128 ≤ b2 ∧ b2 < 192) ∧ (128 ≤ b3 ∧ b3 < 192) then
              let cp := (b1 - 224) * 4096 + (b2 - 128) * 64 + (b3 - 128)
              if 2048 ≤ cp ∧ ¬(55296 ≤ cp ∧ cp ≤ 57343) then
                (decodeURIComponent rest2).map (Char.ofNat cp :: ·)
              else none
            else none
          | _, _, _, _ => none
        | _ => none
      else if b1 < 248 then
        match rest with
        | '%' :: h3 :: h4 :: '%' :: h5 :: h6 :: '%' :: h7 :: h8 :: rest2 =>
          match hexDigit h3, hexDigit h4, hexDigit h5, hexDigit h6,
                hexDigit h7, hexDigit h8 with
          | some c, some d, some e, some f, some g, some h =>
            let b2 := 16 * c + d
            let b3 := 16 * e + f
            let b4 := 16 * g + h
            if (128 ≤ b2 ∧ b2 < 192) ∧ (128 ≤ b3 ∧ b3 < 192) ∧
               (128 ≤ b4 ∧ b4 < 192) then
              let cp := (b1 - 240) * 262144 + (b2 - 128) * 4096 +
                        (b3 - 128) * 64 + (b4 - 128)
              if 65536 ≤ cp ∧ cp ≤ 1114111 then
                (decodeURIComponent rest2).map (Char.ofNat cp :: ·)
              else none
            else none
          | _, _, _, _, _, _ => none
        | _ => none
      else none
    | _, _ => none
  | '%' :: _ => none
  | c :: rest => (decodeURIComponent rest).map (c :: ·)

/-- JavaScript `String.indexOf` restricted to a single character: `none`
models the -1 result. -/
def indexOfChar (c : Char) : List Char → Option Nat
  | [] => none
  | x :: xs => if x = c then some 0 else (indexOfChar c xs).map (· + 1)

/-- JavaScript `String.lastIndexOf` restricted to a single character: `none`
models the -1 result. -/
def lastIndexOfChar (c : Char) : List Char → Option Nat
  | [] => none
  | x :: xs =>
    match lastIndexOfChar c xs with
    | some i => some (i + 1)
    | none => if x = c then some 0 else none

/-- JavaScript `toLowerCase` on the characters the guard compares (ASCII). -/
def jsToLower (c : Char) : Char :=
  if 'A' ≤ c ∧ c ≤ 'Z' then Char.ofNat (c.toNat + 32) else c

/-- `linkBaseName.toLowerCase().endsWith('.md')` from src/main.ts line 93. -/
def endsWithMdSuffix (s : List Char) : Bool :=
  (chars ".md").isSuffixOf (s.map jsToLower)

/-- One attempt of the regex `\[([^\]]+)\]\(([^)]+\)?)\)` (src/main.ts
line 63) anchored at the head of `s`.  The character classes make the
engine's backtracking vacuous, so the attempt is deterministic: a maximal
nonempty run of non-`]` characters (group 1), then `](`, then a maximal
nonempty run of non-`)` characters, then either `))` (the optional `\)?`
consumes the first of the two, joining group 2) or a single `)`.  Returns
`(full match length, group 1, group 2)`. -/
def mdLinkMatchHere (s : List Char) : Option (Nat × List Char × List Char) :=
  match s with
  | [] => none
  | c :: rest =>
    if c = '[' then
      let g1 := rest.takeWhile (fun x => x ≠ ']')
      if g1.length = 0 then none
      else
        match rest.dropWhile (fun x => x ≠ ']') with
        | ']' :: '(' :: rest2 =>
          let g2 := rest2.takeWhile (fun x => x ≠ ')')
          if g2.length = 0 then none
          else
            match rest2.dropWhile (fun x => x ≠ ')') with
            | ')' :: ')' :: _ => some (g1.length + g2.length + 5, g1, g2 ++ [')'])
            | ')' :: _ => some (g1.length + g2.length + 4, g1, g2)
            | _ => none
        | _ => none
    else none

/-- `textBeforeCursor.match(mdLinkRegex)` (src/main.ts line 66): the
leftmost match of the regex, as `(match.index, match[0].length, match[1],
match[2])`. -/
def mdLinkSearch : List Char → Option (Nat × Nat × List Char × List Char)
  | [] => none
  | c :: rest =>
    match mdLinkMatchHere (c :: rest) with
    | some (len, g1, g2) => some (0, len, g1, g2)
    | none =>
      match mdLinkSearch rest with
      | some (idx, len, g1, g2) => some (idx + 1, len, g1, g2)
      | none => none

/-- src/main.ts lines 85-88: `lastIndexOf('/')` followed by
`substring(lastSlashIndex + 1)` when a slash is present. -/
def substringAfterLastSlash (s : List Char) : List Char :=
  match lastIndexOfChar '/' s with
  | some lastSlashIndex => s.drop (lastSlashIndex + 1)
  | none => s

/-- src/main.ts lines 89-92: `substring(0, hashIndex)` when a `#` is
present. -/
def truncateAtHash (s : List Char) (hashIndex : Option Nat) : List Char :=
  match hashIndex with
  | some h => s.take h
  | none => s

/-- The `linkBaseName`/`hashIndex` computation of src/main.ts lines 84-95:
take the substring after the last `/` (if any), record the index of the
first `#` in that substring, truncate at it, then strip a trailing `.md`
case-insensitively.  Returns `(linkBaseName, hashIndex)`; note that
`hashIndex` is an index into the slash-stripped string. -/
def linkBaseNameAndHash (decodedLinkPath : List Char) : List Char × Option Nat :=
  let afterSlash := substringAfterLastSlash decodedLinkPath
  let hashIndex := indexOfChar '#' afterSlash
  let beforeHash := truncateAtHash afterSlash hashIndex
  let stripped :=
    if endsWithMdSuffix beforeHash then beforeHash.take (beforeHash.length - 3)
    else beforeHash
  (stripped, hashIndex)

/-- A buffer position, as Obsidian's `EditorPosition {line, ch}`. -/
structure EditorPosition where
  line : Nat
  ch : Nat
deriving DecidableEq

/-- An editor mutation issued by the handler. -/
inductive EditorOp where
  | replaceRange (text : List Char) (fromPos toPos : EditorPosition)
  | setCursor (pos : EditorPosition)
deriving DecidableEq

/-- Whether the host `replaceRange` / `setCursor` primitives throw when
invoked (HostMutationFailure). -/
structure HostBehavior where
  replaceRangeThrows : Bool
  setCursorThrows : Bool
deriving DecidableEq

/-- A host whose mutation primitives succeed. -/
def okHost : HostBehavior := ⟨false, false⟩

/-- The inputs of one change notification: the current line's text, the
cursor position, and the result of reading the `useMarkdownLinks`
configuration (`none` models the read throwing). -/
structure ChangeContext where
  lineText : List Char
  cursorLine : Nat
  cursorCh : Nat
  useMarkdownLinksConfig : Option Bool
deriving DecidableEq

/-- The observable outcome of one `handleEditorChange` call. -/
structure HandlerResult where
  ops : List EditorOp
  latchAfter : Bool
  threw : Bool
  resetScheduled : Bool
  loggedConfigError : Bool
deriving DecidableEq

/-- src/main.ts lines 146-166: set `isReplacing`, `try` the
`replaceRange` and `setCursor` calls, and in the `finally` block schedule
the latch reset via `requestAnimationFrame`.  A throwing primitive applies
nothing and the exception escapes, but the reset is scheduled regardless. -/
def performReplacement (wikilink : List Char) (fromPos toPos : EditorPosition)
    (host : HostBehavior) : HandlerResult :=
  if host.replaceRangeThrows then
    { ops := [], latchAfter := true, threw := true,
      resetScheduled := true, loggedConfigError := false }
  else if host.setCursorThrows then
    { ops := [EditorOp.replaceRange wikilink fromPos toPos],
      latchAfter := true, threw := true,
      resetScheduled := true, loggedConfigError := false }
  else
    { ops := [EditorOp.replaceRange wikilink fromPos toPos,
              EditorOp.setCursor ⟨fromPos.line, fromPos.ch + wikilink.length⟩],
      latchAfter := true, threw := false,
      resetScheduled := true, loggedConfigError := false }

/-- The change handler of src/main.ts lines 28-170.  `isReplacing` is the
latch value on entry; the `threw := true` result at the decode step models
`decodeURIComponent` raising `URIError` outside any try/catch. -/
def handleEditorChange (isReplacing : Bool) (ctx : ChangeContext)
    (host : HostBehavior) : HandlerResult :=
  if isReplacing then
    { ops := [], latchAfter := isReplacing, threw := false,
      resetScheduled := false, loggedConfigError := false }
  else
    match ctx.useMarkdownLinksConfig with
    | none =>
      { ops := [], latchAfter := isReplacing, threw := false,
        resetScheduled := false, loggedConfigError := true }
    | some useMarkdownLinks =>
      if !useMarkdownLinks then
        { ops := [], latchAfter := isReplacing, threw := false,
          resetScheduled := false, loggedConfigError := false }
      else
        let textBeforeCursor := ctx.lineText.take ctx.cursorCh
        match mdLinkSearch textBeforeCursor with
        | none =>
          { ops := [], latchAfter := isReplacing, threw := false,
            resetScheduled := false, loggedConfigError := false }
        | some (matchIndex, matchLen, displayText, linkPath) =>
          if matchIndex + matchLen = ctx.cursorCh then
            match decodeURIComponent linkPath with
            | none =>
              { ops := [], latchAfter := isReplacing, threw := true,
                resetScheduled := false, loggedConfigError := false }
            | some decodedLinkPath =>
              let lb := linkBaseNameAndHash decodedLinkPath
              let linkBaseName := lb.1
              let hashIndex := lb.2
              let isAutoConvertedWikilink :=
                if displayText = linkBaseName then true
                else
                  match hashIndex with
                  | some h =>
                    let headingOrBlockRef := decodedLinkPath.drop (h + 1)
                    if displayText = headingOrBlockRef then true else true
                  | none => false
              if isAutoConvertedWikilink then
                let originalWikilinkContent :=
                  match hashIndex with
                  | some _ => linkBaseName ++ '#' :: displayText
                  | none => linkBaseName
                let wikilink := '[' :: '[' :: originalWikilinkContent ++ chars "]]"
                performReplacement wikilink ⟨ctx.cursorLine, matchIndex⟩
                  ⟨ctx.cursorLine, ctx.cursorCh⟩ host
              else
                { ops := [], latchAfter := isReplacing, threw := false,
                  resetScheduled := false, loggedConfigError := false }
          else
            { ops := [], latchAfter := isReplacing, threw := false,
              resetScheduled := false, loggedConfigError := false }

/-- Effect of a single-line `replaceRange text {line, fromCh} {line, toCh}`
on that line's text. -/
def applyReplaceOnLine (lineText text : List Char) (fromCh toCh : Nat) :
    List Char :=
  lineText.take fromCh ++ text ++ lineText.drop toCh

/-- The `baseName` pipeline as the specification words it: the substring
after the last `/`, truncated at the first `#`, with a trailing `.md`
stripped case-insensitively. -/
def baseNameSpec (decodedPath : List Char) : List Char :=
  let afterSlash := (decodedPath.reverse.takeWhile (fun c => c ≠ '/')).reverse
  let beforeHash := afterSlash.takeWhile (fun c => c ≠ '#')
  if endsWithMdSuffix beforeHash then beforeHash.take (beforeHash.length - 3)
  else beforeHash

/-! ## Lemmas about the regex search -/

theorem mdLinkMatchHere_of_ne {c : Char} (xs : List Char) (hc : c ≠ '[') :
    mdLinkMatchHere (c :: xs) = none := by
  rw [mdLinkMatchHere]
  simp [hc]

theorem mdLinkSearch_append (u s : List Char) (hu : '[' ∉ u) :
    mdLinkSearch (u ++ s) =
      (mdLinkSearch s).map (fun r => (u.length + r.1, r.2)) := by
  induction u with
  | nil =>
    simp only [List.nil_append, List.length_nil]
    cases mdLinkSearch s with
    | none => rfl
    | some r => simp
  | cons c u ih =>
    have hc : c ≠ '[' := fun h => hu (by simp [h])
    have hu' : '[' ∉ u := fun h => hu (List.mem_cons_of_mem _ h)
    rw [List.cons_append, mdLinkSearch, mdLinkMatchHere_of_ne _ hc, ih hu']
    cases mdLinkSearch s with
    | none => rfl
    | some r =>
      obtain ⟨i, len, g1, g2⟩ := r
      simp
      omega

theorem mdLinkMatchHere_bounds {s : List Char} {len : Nat} {g1 g2 : List Char}
    (h : mdLinkMatchHere s = some (len, g1, g2)) : 6 ≤ len ∧ len ≤ s.length := by
  cases s with
  | nil => rw [mdLinkMatchHere] at h; exact absurd h (by simp)
  | cons c rest =>
    rw [mdLinkMatchHere] at h
    simp only [] at h
    have hlen1 : (rest.takeWhile (fun x => x ≠ ']')).length +
        (rest.dropWhile (fun x => x ≠ ']')).length = rest.length := by
      rw [← List.length_append, List.takeWhile_append_dropWhile]
    split at h
    case isFalse => exact Option.noConfusion h
    case isTrue =>
      split at h
      case isTrue => exact Option.noConfusion h
      case isFalse =>
        split at h
        case h_2 => exact Option.noConfusion h
        case h_1 =>
          rename_i rest2 heq1
          rw [heq1] at hlen1
          have hlen2 : (rest2.takeWhile (fun x => x ≠ ')')).length +
              (rest2.dropWhile (fun x => x ≠ ')')).length = rest2.length := by
            rw [← List.length_append, List.takeWhile_append_dropWhile]
          split at h
          case isTrue => exact Option.noConfusion h
          case isFalse =>
            split at h
            case h_3 => exact Option.noConfusion h
            case h_1 =>
              rename_i tail heq2
              rw [heq2] at hlen2
              simp only [Option.some.injEq, Prod.mk.injEq] at h
              obtain ⟨hlen, _, _⟩ := h
              simp only [List.length_cons] at hlen1 hlen2 ⊢
              omega
            case h_2 =>
              rename_i tail heq2
              rw [heq2] at hlen2
              simp only [Option.some.injEq, Prod.mk.injEq] at h
              obtain ⟨hlen, _, _⟩ := h
              simp only [List.length_cons] at hlen1 hlen2 ⊢
              omega

theorem mdLinkSearch_bounds : ∀ {s : List Char} {i len : Nat} {g1 g2 : List Char},
    mdLinkSearch s = some (i, len, g1, g2) → 6 ≤ len ∧ i + len ≤ s.length := by
  intro s
  induction s with
  | nil => intro i len g1 g2 h; rw [mdLinkSearch] at h; exact Option.noConfusion h
  | cons c rest ih =>
    intro i len g1 g2 h
    rw [mdLinkSearch] at h
    cases hm : mdLinkMatchHere (c :: rest) with
    | some r =>
      obtain ⟨len', g1', g2'⟩ := r
      rw [hm] at h
      simp only [Option.some.injEq, Prod.mk.injEq] at h
      obtain ⟨hi, hlen, _, _⟩ := h
      subst hi
      subst hlen
      have := mdLinkMatchHere_bounds hm
      simpa using this
    | none =>
      rw [hm] at h
      cases hs : mdLinkSearch rest with
      | none => rw [hs] at h; exact Option.noConfusion h
      | some r =>
        obtain ⟨i', len', g1', g2'⟩ := r
        rw [hs] at h
        simp only [Option.some.injEq, Prod.mk.injEq] at h
        obtain ⟨hi, hlen, _, _⟩ := h
        obtain ⟨hb1, hb2⟩ := ih hs
        simp only [List.length_cons]
        omega

/-! ## The shape of a handler invocation

Every call either is a no-op with identical outcome for any host
behaviour, or reaches the replacement block of src/main.ts lines 146-166
with a replacement text and span computed independently of the host. -/

theorem handleEditorChange_cases (isReplacing : Bool) (ctx : ChangeContext)
    (host1 host2 : HostBehavior) :
    (handleEditorChange isReplacing ctx host1 = handleEditorChange isReplacing ctx host2 ∧
     (handleEditorChange isReplacing ctx host1).ops = [] ∧
     (handleEditorChange isReplacing ctx host1).resetScheduled = false) ∨
    (∃ w i, i + 6 ≤ ctx.cursorCh ∧ ctx.cursorCh ≤ ctx.lineText.length ∧
      handleEditorChange isReplacing ctx host1 =
        performReplacement w ⟨ctx.cursorLine, i⟩ ⟨ctx.cursorLine, ctx.cursorCh⟩ host1 ∧
      handleEditorChange isReplacing ctx host2 =
        performReplacement w ⟨ctx.cursorLine, i⟩ ⟨ctx.cursorLine, ctx.cursorCh⟩ host2) := by
  rw [handleEditorChange, handleEditorChange]
  simp only []
  split
  · exact Or.inl ⟨rfl, rfl, rfl⟩
  · split
    · exact Or.inl ⟨rfl, rfl, rfl⟩
    · split
      · exact Or.inl ⟨rfl, rfl, rfl⟩
      · split
        · exact Or.inl ⟨rfl, rfl, rfl⟩
        · rename_i matchIndex matchLen displayText linkPath hsearch
          split
          · rename_i hend
            have hb := mdLinkSearch_bounds hsearch
            have hcur : matchIndex + 6 ≤ ctx.cursorCh ∧
                ctx.cursorCh ≤ ctx.lineText.length := by
              obtain ⟨hb1, hb2⟩ := hb
              rw [List.length_take] at hb2
              omega
            split
            all_goals try exact Or.inl ⟨rfl, rfl, rfl⟩
            all_goals rename_i decodedLinkPath hdec
            all_goals rcases hh : (linkBaseNameAndHash decodedLinkPath).2 with _ | hIdx
            · simp only [hh]
              by_cases hdt : (if displayText = (linkBaseNameAndHash decodedLinkPath).1
                  then true else false) = true
              · rw [if_pos hdt, if_pos hdt]
                exact Or.inr ⟨_, matchIndex, hcur.1, hcur.2, rfl, rfl⟩
              · rw [if_neg hdt, if_neg hdt]
                exact Or.inl ⟨rfl, rfl, rfl⟩
            · simp only [hh, ite_self]
              split
              · exact Or.inr ⟨_, matchIndex, hcur.1, hcur.2, rfl, rfl⟩
              · rename_i hfalse
                exact absurd trivial hfalse
          · exact Or.inl ⟨rfl, rfl, rfl⟩

/-! ## Frame lemmas for the span substitution -/

theorem applyReplaceOnLine_take {lineText text : List Char} {fromCh toCh : Nat}
    (h : fromCh ≤ lineText.length) :
    (applyReplaceOnLine lineText text fromCh toCh).take fromCh =
      lineText.take fromCh := by
  rw [applyReplaceOnLine, List.append_assoc]
  have hlen : (lineText.take fromCh).length = fromCh := by
    rw [List.length_take]; omega
  rw [List.take_append_eq_append_take, hlen, Nat.sub_self]
  simp [List.take_take]

theorem applyReplaceOnLine_drop {lineText text : List Char} {fromCh toCh : Nat}
    (h : fromCh ≤ lineText.length) :
    (applyReplaceOnLine lineText text fromCh toCh).drop (fromCh + text.length) =
      lineText.drop toCh := by
  rw [applyReplaceOnLine]
  have hlen : (lineText.take fromCh ++ text).length = fromCh + text.length := by
    rw [List.length_append, List.length_take]; omega
  have h1 : (lineText.take fromCh ++ text).drop (fromCh + text.length) = [] := by
    apply List.drop_eq_nil_of_le
    rw [hlen]
  rw [List.drop_append_eq_append_drop, h1, hlen, Nat.sub_self, List.drop_zero,
    List.nil_append]

/-! ## The baseName pipeline matches its specification wording -/

theorem takeWhile_append_all {p : Char → Bool} {l : List Char} (t : List Char)
    (h : ∀ a ∈ l, p a = true) :
    (l ++ t).takeWhile p = l ++ t.takeWhile p := by
  induction l with
  | nil => rfl
  | cons x xs ih =>
    have hx : p x = true := h x (List.mem_cons_self x xs)
    rw [List.cons_append, List.takeWhile_cons, if_pos hx,
      ih (fun a ha => h a (List.mem_cons_of_mem _ ha)), List.cons_append]

theorem takeWhile_append_stop {p : Char → Bool} {l : List Char} (t : List Char)
    (h : ∃ a ∈ l, p a = false) :
    (l ++ t).takeWhile p = l.takeWhile p := by
  induction l with
  | nil =>
    obtain ⟨a, ha, _⟩ := h
    exact absurd ha (List.not_mem_nil a)
  | cons x xs ih =>
    rw [List.cons_append, List.takeWhile_cons, List.takeWhile_cons]
    by_cases hx : p x = true
    · rw [if_pos hx, if_pos hx]
      congr 1
      apply ih
      obtain ⟨a, ha, hpa⟩ := h
      rcases List.mem_cons.mp ha with rfl | ha2
      · rw [hx] at hpa; exact absurd hpa (by simp)
      · exact ⟨a, ha2, hpa⟩
    · rw [if_neg hx, if_neg hx]

theorem lastIndexOfChar_eq_none {c : Char} {l : List Char} :
    lastIndexOfChar c l = none ↔ c ∉ l := by
  induction l with
  | nil => simp [lastIndexOfChar]
  | cons x xs ih =>
    rw [lastIndexOfChar]
    cases hx : lastIndexOfChar c xs with
    | some i =>
      have hmem : c ∈ xs := by
        by_contra hmem
        rw [ih.mpr hmem] at hx
        exact Option.noConfusion hx
      simp [hmem]
    | none =>
      have hmem : c ∉ xs := ih.mp hx
      by_cases hxc : x = c
      · subst hxc
        simp
      · have hcx : ¬c = x := fun hEq => hxc hEq.symm
        simp [hxc, hmem, hcx]

theorem substringAfterLastSlash_spec (s : List Char) :
    substringAfterLastSlash s =
      (s.reverse.takeWhile (fun c => c ≠ '/')).reverse := by
  induction s with
  | nil => rfl
  | cons x xs ih =>
    rw [substringAfterLastSlash, lastIndexOfChar]
    cases hx : lastIndexOfChar '/' xs with
    | some i =>
      rw [substringAfterLastSlash, hx] at ih
      have hmem : '/' ∈ xs := by
        by_contra hmem
        rw [lastIndexOfChar_eq_none.mpr hmem] at hx
        exact Option.noConfusion hx
      have hstop : ∃ a ∈ xs.reverse, (fun c => decide (c ≠ '/')) a = false :=
        ⟨'/', List.mem_reverse.mpr hmem, by simp⟩
      rw [List.reverse_cons, takeWhile_append_stop _ hstop]
      simpa using ih
    | none =>
      have hmem : '/' ∉ xs := lastIndexOfChar_eq_none.mp hx
      have hall : ∀ a ∈ xs.reverse, (fun c => decide (c ≠ '/')) a = true := by
        intro a ha
        simp only [decide_eq_true_eq]
        intro hEq
        exact hmem (hEq ▸ List.mem_reverse.mp ha)
      rw [List.reverse_cons, takeWhile_append_all _ hall]
      by_cases hx2 : x = '/'
      · subst hx2
        simp
      · simp [hx2]

theorem truncateAtHash_spec (b : List Char) :
    truncateAtHash b (indexOfChar '#' b) = b.takeWhile (fun c => c ≠ '#') := by
  induction b with
  | nil => rfl
  | cons x xs ih =>
    rw [indexOfChar]
    by_cases hx : x = '#'
    · subst hx
      rw [if_pos rfl, truncateAtHash.eq_def]
      simp [List.takeWhile_cons]
    · rw [if_neg hx]
      cases hi : indexOfChar '#' xs with
      | some k =>
        rw [hi] at ih
        rw [truncateAtHash.eq_def] at ih ⊢
        simp only [Option.map_some']
        simp [List.takeWhile_cons, hx, List.take_succ_cons] at ih ⊢
        exact ih
      | none =>
        rw [hi] at ih
        rw [truncateAtHash.eq_def] at ih ⊢
        simp only [Option.map_none']
        simp [List.takeWhile_cons, hx] at ih ⊢
        exact ih

theorem linkBaseName_spec (decodedPath : List Char) :
    (linkBaseNameAndHash decodedPath).1 = baseNameSpec decodedPath := by
  rw [linkBaseNameAndHash, baseNameSpec]
  simp only []
  rw [substringAfterLastSlash_spec, truncateAtHash_spec]

theorem performReplacement_fields (w : List Char) (p q : EditorPosition)
    (host : HostBehavior) :
    (performReplacement w p q host).latchAfter = true ∧
    (performReplacement w p q host).resetScheduled = true ∧
    (performReplacement w p q host).threw =
      (host.replaceRangeThrows || host.setCursorThrows) ∧
    (host.replaceRangeThrows = true → (performReplacement w p q host).ops = []) := by
  rcases host with ⟨a, b⟩
  cases a <;> cases b
  · exact ⟨rfl, rfl, rfl, fun hcontra => Bool.noConfusion hcontra⟩
  · exact ⟨rfl, rfl, rfl, fun hcontra => Bool.noConfusion hcontra⟩
  · exact ⟨rfl, rfl, rfl, fun _ => rfl⟩
  · exact ⟨rfl, rfl, rfl, fun _ => rfl⟩

/-! ## Claims -/

/-- C1 (counterexample): a line that contains `[Note](Note.md)` with the
cursor immediately after its closing parenthesis, parenthetical preference
and latch `false`, on which `handleEditorChange` nevertheless performs no
mutation: an earlier parenthetical link makes the leftmost regex match end
away from the cursor, so the claim as stated is false. -/
theorem simpleLinkRewrite_cex :
    chars "[a](b)[Note](Note.md)" = chars "[a](b)" ++ chars "[Note](Note.md)" ∧
    handleEditorChange false
      ⟨chars "[a](b)[Note](Note.md)", 0, 21, some true⟩ okHost =
      { ops := [], latchAfter := false, threw := false, resetScheduled := false,
        loggedConfigError := false } := by
  exact ⟨by decide, by decide⟩

/-- C1 (amended): for every line text of the form `u ++ "[Note](Note.md)" ++ v`
with the cursor immediately after the closing parenthesis of that
occurrence, where no `[` occurs in `u` (so the occurrence is the leftmost
regex match of the prefix), with parenthetical preference and latch
`false`, `handleEditorChange` replaces exactly the span of that link with
`[[Note]]` and sets the cursor to matchStart + 8, immediately after the
final `]]`. -/
theorem simpleLinkRewrite (u v : List Char) (line cursorCh : Nat)
    (hu : '[' ∉ u) (hcur : cursorCh = u.length + 15) :
    handleEditorChange false
      ⟨u ++ chars "[Note](Note.md)" ++ v, line, cursorCh, some true⟩ okHost =
      { ops := [EditorOp.replaceRange (chars "[[Note]]")
                  ⟨line, u.length⟩ ⟨line, cursorCh⟩,
                EditorOp.setCursor ⟨line, u.length + 8⟩],
        latchAfter := true, threw := false, resetScheduled := true,
        loggedConfigError := false } := by
  subst hcur
  have hlink : mdLinkSearch (chars "[Note](Note.md)") =
      some (0, 15, chars "Note", chars "Note.md") := by decide
  have hlen : (u ++ chars "[Note](Note.md)").length = u.length + 15 := by
    rw [List.length_append]
    rfl
  have htake : ((u ++ chars "[Note](Note.md)") ++ v).take (u.length + 15) =
      u ++ chars "[Note](Note.md)" := List.take_left' hlen
  have hsearch : mdLinkSearch (u ++ chars "[Note](Note.md)") =
      some (u.length, 15, chars "Note", chars "Note.md") := by
    rw [mdLinkSearch_append _ _ hu, hlink]
    simp
  have hdec : decodeURIComponent (chars "Note.md") = some (chars "Note.md") := by
    decide
  have hlb : linkBaseNameAndHash (chars "Note.md") = (chars "Note", none) := by
    decide
  rw [handleEditorChange]
  simp only [htake, hsearch, hdec, hlb]
  simp [performReplacement, okHost]
  decide

/-- C1 (witness): the amended rewrite at the concrete line
`xy [Note](Note.md)` with the cursor at offset 18. -/
theorem simpleLinkRewrite_witness :
    ('[' ∉ chars "xy ") ∧ (18 = (chars "xy ").length + 15) ∧
    handleEditorChange false
      ⟨chars "xy [Note](Note.md)", 0, 18, some true⟩ okHost =
      { ops := [EditorOp.replaceRange (chars "[[Note]]") ⟨0, 3⟩ ⟨0, 18⟩,
                EditorOp.setCursor ⟨0, 11⟩],
        latchAfter := true, threw := false, resetScheduled := true,
        loggedConfigError := false } :=
  ⟨by decide, by decide, simpleLinkRewrite (chars "xy ") [] 0 18 (by decide) (by decide)⟩

/-- C2: every matched parenthetical link ending exactly at the cursor whose
decoded path has a `#` in its slash-stripped basename is classified as
auto-converted unconditionally (no hypothesis relates the display text to
the fragment), and the replacement text is `[[` ++ baseName ++ `#` ++
displayText ++ `]]` — the original display text, not the fragment. -/
theorem fragmentRewriteUnconditional (ctx : ChangeContext)
    {matchIndex matchLen : Nat}
    {displayText linkPath decodedLinkPath : List Char} {hashIdx : Nat}
    (hcfg : ctx.useMarkdownLinksConfig = some true)
    (hsearch : mdLinkSearch (ctx.lineText.take ctx.cursorCh) =
      some (matchIndex, matchLen, displayText, linkPath))
    (hend : matchIndex + matchLen = ctx.cursorCh)
    (hdec : decodeURIComponent linkPath = some decodedLinkPath)
    (hhash : (linkBaseNameAndHash decodedLinkPath).2 = some hashIdx) :
    handleEditorChange false ctx okHost =
      { ops := [EditorOp.replaceRange
          ('[' :: '[' :: ((linkBaseNameAndHash decodedLinkPath).1 ++
            '#' :: displayText) ++ chars "]]")
          ⟨ctx.cursorLine, matchIndex⟩ ⟨ctx.cursorLine, ctx.cursorCh⟩,
        EditorOp.setCursor ⟨ctx.cursorLine, matchIndex +
          ('[' :: '[' :: ((linkBaseNameAndHash decodedLinkPath).1 ++
            '#' :: displayText) ++ chars "]]").length⟩],
        latchAfter := true, threw := false, resetScheduled := true,
        loggedConfigError := false } := by
  rw [handleEditorChange]
  simp only [hcfg, hsearch, hdec, hhash]
  simp [hend, performReplacement, okHost]

/-- C2 (witness): `[My Heading](Note#my-heading)` with the cursor at the
end (display text differs from the slugified fragment) is rewritten to
`[[Note#My Heading]]`. -/
theorem fragmentRewriteUnconditional_witness :
    mdLinkSearch ((chars "[My Heading](Note#my-heading)").take 29) =
      some (0, 29, chars "My Heading", chars "Note#my-heading") ∧
    (0 + 29 = 29) ∧
    decodeURIComponent (chars "Note#my-heading") =
      some (chars "Note#my-heading") ∧
    (linkBaseNameAndHash (chars "Note#my-heading")).2 = some 4 ∧
    handleEditorChange false
      ⟨chars "[My Heading](Note#my-heading)", 0, 29, some true⟩ okHost =
      { ops := [EditorOp.replaceRange (chars "[[Note#My Heading]]")
                  ⟨0, 0⟩ ⟨0, 29⟩,
                EditorOp.setCursor ⟨0, 19⟩],
        latchAfter := true, threw := false, resetScheduled := true,
        loggedConfigError := false } :=
  ⟨by decide, rfl, by decide, by decide,
    @fragmentRewriteUnconditional
      ⟨chars "[My Heading](Note#my-heading)", 0, 29, some true⟩
      0 29 (chars "My Heading") (chars "Note#my-heading")
      (chars "Note#my-heading") 4
      rfl (by decide) rfl (by decide) (by decide)⟩

/-- C3: whenever the leftmost parenthetical-link match in the prefix does
not end exactly at the cursor offset, `handleEditorChange` performs zero
buffer mutations and zero cursor moves (no operations at all), for any
latch value, preference and host. -/
theorem nonAdjacentMatchIgnored (latch : Bool) (ctx : ChangeContext)
    (host : HostBehavior) {matchIndex matchLen : Nat}
    {displayText linkPath : List Char}
    (hsearch : mdLinkSearch (ctx.lineText.take ctx.cursorCh) =
      some (matchIndex, matchLen, displayText, linkPath))
    (hne : matchIndex + matchLen ≠ ctx.cursorCh) :
    (handleEditorChange latch ctx host).ops = [] ∧
    (handleEditorChange latch ctx host).threw = false ∧
    (handleEditorChange latch ctx host).resetScheduled = false := by
  cases latch with
  | false =>
    rw [handleEditorChange]
    cases hcfg : ctx.useMarkdownLinksConfig with
    | none => simp [hcfg]
    | some b =>
      cases b with
      | false => simp [hcfg]
      | true => simp [hcfg, hsearch, hne]
  | true => exact ⟨rfl, rfl, rfl⟩

/-- C3 (witness): `[Note](Note.md) extra text` with the cursor after the
trailing text: the leftmost match ends at 15 while the cursor is at 26,
and no operation is issued. -/
theorem nonAdjacentMatchIgnored_witness :
    mdLinkSearch ((chars "[Note](Note.md) extra text").take 26) =
      some (0, 15, chars "Note", chars "Note.md") ∧
    (0 + 15 ≠ 26) ∧
    ((handleEditorChange false
        ⟨chars "[Note](Note.md) extra text", 0, 26, some true⟩ okHost).ops = [] ∧
     (handleEditorChange false
        ⟨chars "[Note](Note.md) extra text", 0, 26, some true⟩ okHost).threw = false ∧
     (handleEditorChange false
        ⟨chars "[Note](Note.md) extra text", 0, 26, some true⟩
        okHost).resetScheduled = false) :=
  ⟨by decide, by decide,
    @nonAdjacentMatchIgnored false
      ⟨chars "[Note](Note.md) extra text", 0, 26, some true⟩ okHost
      0 15 (chars "Note") (chars "Note.md")
      (by decide) (by decide)⟩

/-- C4: when the latch is `true` the handler returns immediately with no
detection work, no mutation, no log, no throw and no reset scheduling; and
any call that does issue operations leaves the latch `true` at return with
the reset only scheduled for a later turn, so the synchronous re-entrant
call triggered by applying the rewrite (which reads that latch) issues no
operations. -/
theorem reentrancyLatchSafety (ctx ctx2 : ChangeContext)
    (host host2 : HostBehavior) :
    handleEditorChange true ctx host =
      { ops := [], latchAfter := true, threw := false, resetScheduled := false,
        loggedConfigError := false } ∧
    ((handleEditorChange false ctx2 host2).ops ≠ [] →
      (handleEditorChange false ctx2 host2).latchAfter = true ∧
      (handleEditorChange false ctx2 host2).resetScheduled = true ∧
      (handleEditorChange
        (handleEditorChange false ctx2 host2).latchAfter ctx host).ops = []) := by
  refine ⟨rfl, fun hops => ?_⟩
  rcases handleEditorChange_cases false ctx2 host2 host2 with
    ⟨_, h0, _⟩ | ⟨w, i, _, _, heq, _⟩
  · exact absurd h0 hops
  · obtain ⟨f1, f2, _, _⟩ := performReplacement_fields w
      ⟨ctx2.cursorLine, i⟩ ⟨ctx2.cursorLine, ctx2.cursorCh⟩ host2
    rw [heq]
    refine ⟨f1, f2, ?_⟩
    rw [f1]
    rfl

/-- C4 (witness): the simple round-trip input triggers, and the re-entrant
call with the post-call latch issues no operations. -/
theorem reentrancyLatchSafety_witness :
    (handleEditorChange false
      ⟨chars "[Note](Note.md)", 0, 15, some true⟩ okHost).ops ≠ [] ∧
    ((handleEditorChange false
        ⟨chars "[Note](Note.md)", 0, 15, some true⟩ okHost).latchAfter = true ∧
     (handleEditorChange false
        ⟨chars "[Note](Note.md)", 0, 15, some true⟩ okHost).resetScheduled = true ∧
     (handleEditorChange
        (handleEditorChange false
          ⟨chars "[Note](Note.md)", 0, 15, some true⟩ okHost).latchAfter
        ⟨chars "[Note](Note.md)", 0, 15, some true⟩ okHost).ops = []) :=
  ⟨by decide,
    (reentrancyLatchSafety ⟨chars "[Note](Note.md)", 0, 15, some true⟩
      ⟨chars "[Note](Note.md)", 0, 15, some true⟩ okHost okHost).2 (by decide)⟩

/-- C5: when the configuration read reports that auto-conversion to
parenthetical links is not in effect (the flag is `false`), the handler
issues no operations, throws nothing and schedules nothing, for any line
text, cursor, latch and host. -/
theorem wikilinkPreferenceGate (latch : Bool) (ctx : ChangeContext)
    (host : HostBehavior)
    (hpref : ctx.useMarkdownLinksConfig = some false) :
    (handleEditorChange latch ctx host).ops = [] ∧
    (handleEditorChange latch ctx host).threw = false ∧
    (handleEditorChange latch ctx host).resetScheduled = false := by
  cases latch with
  | false =>
    rw [handleEditorChange]
    simp [hpref]
  | true => exact ⟨rfl, rfl, rfl⟩

/-- C5 (witness): the simple round-trip input with wikilink-native
preference produces zero mutations. -/
theorem wikilinkPreferenceGate_witness :
    ((⟨chars "[Note](Note.md)", 0, 15, some false⟩ :
        ChangeContext).useMarkdownLinksConfig = some false) ∧
    ((handleEditorChange false
        ⟨chars "[Note](Note.md)", 0, 15, some false⟩ okHost).ops = [] ∧
     (handleEditorChange false
        ⟨chars "[Note](Note.md)", 0, 15, some false⟩ okHost).threw = false ∧
     (handleEditorChange false
        ⟨chars "[Note](Note.md)", 0, 15, some false⟩
        okHost).resetScheduled = false) :=
  ⟨rfl, wikilinkPreferenceGate false
    ⟨chars "[Note](Note.md)", 0, 15, some false⟩ okHost rfl⟩

/-- C6: the baseName computation of the handler equals the pipeline the
specification words (URL-decode, substring after the last slash, truncate
at the first `#`, strip a trailing `.md` case-insensitively); in
particular the URL-encoded directory-qualified path `folder/Sub%20Note.md`
yields `Sub Note` both for the display-text comparison and for the
reconstructed wikilink. -/
theorem baseNamePipeline :
    (∀ decodedPath : List Char,
      (linkBaseNameAndHash decodedPath).1 = baseNameSpec decodedPath) ∧
    decodeURIComponent (chars "folder/Sub%20Note.md") =
      some (chars "folder/Sub Note.md") ∧
    (linkBaseNameAndHash (chars "folder/Sub Note.md")).1 = chars "Sub Note" ∧
    handleEditorChange false
      ⟨chars "[Sub Note](folder/Sub%20Note.md)", 0, 32, some true⟩ okHost =
      { ops := [EditorOp.replaceRange (chars "[[Sub Note]]") ⟨0, 0⟩ ⟨0, 32⟩,
                EditorOp.setCursor ⟨0, 12⟩],
        latchAfter := true, threw := false, resetScheduled := true,
        loggedConfigError := false } :=
  ⟨linkBaseName_spec, by decide, by decide, by decide⟩

/-- C7: with a host whose primitives succeed, every call either issues no
operations at all, or issues exactly one buffer mutation — a single span
substitution from some offset `i` up to the cursor offset, on the cursor
line — followed by exactly one cursor move to `i` plus the replacement
length; the substituted line keeps its first `i` characters and everything
from the old cursor offset onwards unchanged. -/
theorem singleAtomicMutation (latch : Bool) (ctx : ChangeContext) :
    (handleEditorChange latch ctx okHost).ops = [] ∨
    ∃ w i, i + 6 ≤ ctx.cursorCh ∧ ctx.cursorCh ≤ ctx.lineText.length ∧
      (handleEditorChange latch ctx okHost).ops =
        [EditorOp.replaceRange w ⟨ctx.cursorLine, i⟩ ⟨ctx.cursorLine, ctx.cursorCh⟩,
         EditorOp.setCursor ⟨ctx.cursorLine, i + w.length⟩] ∧
      (applyReplaceOnLine ctx.lineText w i ctx.cursorCh).take i =
        ctx.lineText.take i ∧
      (applyReplaceOnLine ctx.lineText w i ctx.cursorCh).drop (i + w.length) =
        ctx.lineText.drop ctx.cursorCh := by
  rcases handleEditorChange_cases latch ctx okHost okHost with
    ⟨_, h0, _⟩ | ⟨w, i, hi, hc, heq, _⟩
  · exact Or.inl h0
  · refine Or.inr ⟨w, i, hi, hc, ?_, ?_, ?_⟩
    · rw [heq]
      rfl
    · exact applyReplaceOnLine_take (by omega)
    · exact applyReplaceOnLine_drop (by omega)

/-- C8: if the configuration read throws, the handler logs the error,
performs no detection work and no mutation, leaves the latch unchanged and
returns normally (the failure is not propagated). -/
theorem configReadFailureNoop (ctx : ChangeContext) (host : HostBehavior)
    (hcfg : ctx.useMarkdownLinksConfig = none) :
    handleEditorChange false ctx host =
      { ops := [], latchAfter := false, threw := false, resetScheduled := false,
        loggedConfigError := true } := by
  rw [handleEditorChange]
  simp [hcfg]

/-- C8 (witness): the simple round-trip input with a failing configuration
read. -/
theorem configReadFailureNoop_witness :
    ((⟨chars "[Note](Note.md)", 0, 15, none⟩ :
        ChangeContext).useMarkdownLinksConfig = none) ∧
    handleEditorChange false ⟨chars "[Note](Note.md)", 0, 15, none⟩ okHost =
      { ops := [], latchAfter := false, threw := false, resetScheduled := false,
        loggedConfigError := true } :=
  ⟨rfl, configReadFailureNoop ⟨chars "[Note](Note.md)", 0, 15, none⟩ okHost rfl⟩

/-- C9: on a triggering event (one that issues operations under a
succeeding host), a throwing `replaceRange` or `setCursor` primitive makes
the exception escape the handler exactly when one of them throws, yet the
latch-reset callback is still scheduled by the `finally` block, the latch
being `true` at the failed return; and a throwing `replaceRange` is not
retried — no operation is applied at all. -/
theorem hostMutationFailurePropagates (ctx : ChangeContext)
    (host : HostBehavior)
    (htrig : (handleEditorChange false ctx okHost).ops ≠ []) :
    (handleEditorChange false ctx host).threw =
      (host.replaceRangeThrows || host.setCursorThrows) ∧
    (handleEditorChange false ctx host).resetScheduled = true ∧
    (handleEditorChange false ctx host).latchAfter = true ∧
    (host.replaceRangeThrows = true →
      (handleEditorChange false ctx host).ops = []) := by
  rcases handleEditorChange_cases false ctx okHost host with
    ⟨hEq, h0, _⟩ | ⟨w, i, _, _, h1, h2⟩
  · exact absurd h0 htrig
  · obtain ⟨f1, f2, f3, f4⟩ := performReplacement_fields w
      ⟨ctx.cursorLine, i⟩ ⟨ctx.cursorLine, ctx.cursorCh⟩ host
    rw [h2]
    exact ⟨f3, f2, f1, f4⟩

/-- C9 (witness): the simple round-trip input with a host whose
`replaceRange` throws: the exception escapes, the reset is still
scheduled, and nothing is applied. -/
theorem hostMutationFailurePropagates_witness :
    (handleEditorChange false
      ⟨chars "[Note](Note.md)", 0, 15, some true⟩ okHost).ops ≠ [] ∧
    ((handleEditorChange false ⟨chars "[Note](Note.md)", 0, 15, some true⟩
        (⟨true, false⟩ : HostBehavior)).threw = (true || false) ∧
     (handleEditorChange false ⟨chars "[Note](Note.md)", 0, 15, some true⟩
        (⟨true, false⟩ : HostBehavior)).resetScheduled = true ∧
     (handleEditorChange false ⟨chars "[Note](Note.md)", 0, 15, some true⟩
        (⟨true, false⟩ : HostBehavior)).latchAfter = true ∧
     (true = true →
       (handleEditorChange false ⟨chars "[Note](Note.md)", 0, 15, some true⟩
         (⟨true, false⟩ : HostBehavior)).ops = [])) :=
  ⟨by decide,
    hostMutationFailurePropagates ⟨chars "[Note](Note.md)", 0, 15, some true⟩
      ⟨true, false⟩ (by decide)⟩

/-- C10: for `[title1](folder/Note#title1)` ending exactly at the cursor
with parenthetical preference and latch `false`, the hash index is 4
(computed in the slash-stripped basename), so the heading comparison reads
`drop (4+1)` of the full decoded path — the wrong substring
`r/Note#title1`, different from the display text — yet the rewrite is
`[[Note#title1]]`, identical in text to the directory-free
`[title1](Note#title1)` case, because the fragment classification is
unconditional. -/
theorem directoryFragmentRewrite :
    (linkBaseNameAndHash (chars "folder/Note#title1")).2 = some 4 ∧
    (chars "folder/Note#title1").drop (4 + 1) = chars "r/Note#title1" ∧
    chars "r/Note#title1" ≠ chars "title1" ∧
    handleEditorChange false
      ⟨chars "[title1](folder/Note#title1)", 0, 28, some true⟩ okHost =
      { ops := [EditorOp.replaceRange (chars "[[Note#title1]]") ⟨0, 0⟩ ⟨0, 28⟩,
                EditorOp.setCursor ⟨0, 15⟩],
        latchAfter := true, threw := false, resetScheduled := true,
        loggedConfigError := false } ∧
    handleEditorChange false
      ⟨chars "[title1](Note#title1)", 0, 21, some true⟩ okHost =
      { ops := [EditorOp.replaceRange (chars "[[Note#title1]]") ⟨0, 0⟩ ⟨0, 21⟩,
                EditorOp.setCursor ⟨0, 15⟩],
        latchAfter := true, threw := false, resetScheduled := true,
        loggedConfigError := false } :=
  ⟨by decide, by decide, by decide, by decide, by decide⟩

end WikilinkPreserver
